import Mathlib

/-!
Verification development for the PGP trajectory-prediction core: a shallow
embedding of `src/models/encoders/pgp_encoder.py` (class `PGPEncoder` with
`forward`, `variable_size_gru_encode`, `build_adj_mat`) and
`src/models/aggregators/goal_conditioned.py` (class `GoalConditioned` with
`forward` and `compute_goal_probs`).

Modelling conventions:
* Tensors are curried functions over `Fin`-typed index spaces; the batch axis
  is always the first index.  Scalar entries are rationals (`ℚ`); the
  integer-valued edge tables (`s_next`, `edge_type`, `node_seq_gt`) are
  modelled in `ℤ`, matching their use after the `.long()` casts in the source.
* Learned submodules whose internals the verified properties never touch
  (the GRU recurrences, the multi-head attention blocks, the GAT layers and
  the inherited `GlobalAttention` aggregator) are parameters: arbitrary
  functions of the same shape signature as the PyTorch modules.  Linear
  layers, LeakyReLU, concatenation, masking, compaction and scattering are
  modelled concretely.
* `torch.exp` applied to the goal scores is abstracted by a parameter
  `E : ℚ → ℚ`; every theorem that needs it assumes only strict positivity,
  which is the single analytic fact about `exp` the source relies on.  Goal
  log-probabilities are represented in the exponential domain (see
  `computeGoalProbsExp`), because the log-space tensor contains `-inf` at
  masked entries and the specified properties are all about the
  exponentiated tensor.
* Fallible tensor operations (out-of-range advanced indexing, missing
  dictionary keys) return `Except String`.
-/

namespace PGP

/-- LeakyReLU with PyTorch's default negative slope 1/100 (`nn.LeakyReLU()`). -/
def leakyRelu (x : ℚ) : ℚ := if x < 0 then x / 100 else x

/-- Pointwise LeakyReLU over a feature vector. -/
def leakyVec {d : ℕ} (v : Fin d → ℚ) : Fin d → ℚ := fun j => leakyRelu (v j)

/-- Affine layer `nn.Linear`: `x ↦ W x + b` on the last tensor axis. -/
def linear {i o : ℕ} (W : Fin o → Fin i → ℚ) (b : Fin o → ℚ) (x : Fin i → ℚ) :
    Fin o → ℚ :=
  fun j => (∑ k, W j k * x k) + b j

/-- Concatenation of two indexed families along one axis (`torch.cat`); used
both for feature vectors and for entity-axis concatenation of encoding
tensors. -/
def catVec {a b : ℕ} {β : Type} (u : Fin a → β) (v : Fin b → β) : Fin (a + b) → β :=
  fun j => if h : (j : ℕ) < a then u ⟨j, h⟩ else v ⟨(j : ℕ) - a, by omega⟩

/-- Row-major enumeration of a two-dimensional index grid.  This is the element
order in which `torch.masked_select` and `torch.Tensor.masked_scatter_`
traverse the leading `[batch, entity]` axes of a tensor. -/
def gridPairs (B N : ℕ) : List (Fin B × Fin N) :=
  (List.finRange B).flatMap fun b => (List.finRange N).map fun n => (b, n)

/-- Positional semantics of `masked_scatter` into a zero-filled destination:
`true` flag positions consume source elements in order, `false` positions keep
the fill value `z`. -/
def scatterBack {β : Type} (z : β) : List Bool → List β → List β
  | [], _ => []
  | true :: fs, s :: ss => s :: scatterBack z fs ss
  | true :: fs, [] => z :: scatterBack z fs []
  | false :: fs, ss => z :: scatterBack z fs ss

/-- Scattering back exactly the values selected by the same flags restores each
selected position's own value and leaves the rest at the fill value. -/
theorem scatterBack_map_filter {α β : Type} (z : β) (v : α → Bool) (f : α → β) :
    ∀ ps : List α,
      scatterBack z (ps.map v) ((ps.filter v).map f)
        = ps.map fun p => if v p then f p else z
  | [] => rfl
  | p :: ps => by
    cases hv : v p <;>
      simp [scatterBack, List.filter_cons, hv, scatterBack_map_filter z v f ps]

/-- Reading a flattened row-major list at offset `i * K + j` lands in the
`i`-th block when all blocks have length `K`. -/
theorem getD_flatMap_const {α β : Type} (d : β) (f : α → List β) (K : ℕ)
    (hf : ∀ a, (f a).length = K) (a₀ : α) :
    ∀ (l : List α) (i j : ℕ), i < l.length → j < K →
      (l.flatMap f).getD (i * K + j) d = (f (l.getD i a₀)).getD j d
  | [], i, _, hi, _ => absurd hi (by simp)
  | a :: t, 0, j, _, hj => by
    simp only [List.flatMap_cons, Nat.zero_mul, Nat.zero_add]
    rw [List.getD_append _ _ _ _ (by rw [hf a]; exact hj)]
    rfl
  | a :: t, i + 1, j, hi, hj => by
    have hlen : (f a).length ≤ (i + 1) * K + j := by
      rw [hf a]
      calc K ≤ (i + 1) * K := Nat.le_mul_of_pos_left K (by omega)
        _ ≤ (i + 1) * K + j := Nat.le_add_right _ _
    simp only [List.flatMap_cons]
    rw [List.getD_append_right _ _ _ _ hlen]
    have harith : (i + 1) * K + j - (f a).length = i * K + j := by
      rw [hf a]
      have : (i + 1) * K = i * K + K := by ring
      omega
    rw [harith]
    exact getD_flatMap_const d f K hf a₀ t i j (by simpa using hi) hj

/-- Position `b * N + n` of the row-major grid enumeration is the pair
`(b, n)`. -/
theorem gridPairs_getD {B N : ℕ} (b : Fin B) (n : Fin N) (d : Fin B × Fin N) :
    (gridPairs B N).getD ((b : ℕ) * N + (n : ℕ)) d = (b, n) := by
  unfold gridPairs
  rw [getD_flatMap_const d _ N (fun a => by simp) b _ (b : ℕ) (n : ℕ)
    (by simp [b.isLt]) n.isLt]
  have hb : (List.finRange B).getD (b : ℕ) b = b := by
    rw [List.getD_eq_getElem _ _ (by simp [b.isLt])]
    simp
  rw [hb, List.getD_eq_getElem _ _ (by simp [n.isLt])]
  simp

/-! ## Variable-size GRU encoder

Shallow embedding of `PGPEncoder.variable_size_gru_encode`.  The feature
embedding has shape `[B, N, T, dE]`; the mask tensor has shape
`[B, N, T, dM + 1]` (written with a successor so that the source's
`masks[:, :, :, 0]` column always exists; the source reads only that column,
and `masked_select` broadcasts the collapsed mask over the trailing feature
axis, so the two trailing dimensions are independent).  The recurrent
summarizer `gru` maps a list of step vectors to its final hidden state, the
semantics of `pack_padded_sequence` + `nn.GRU` + taking the last hidden
state. -/

/-- Entity validity flag: `masks_for_batching`, i.e. the entity has at least
one time step whose first mask entry is zero (`(~masks[:, :, :, 0].bool()).any(dim=-1)`). -/
def entityValid {B N T dM : ℕ} (masks : Fin B → Fin N → Fin T → Fin (dM + 1) → ℚ)
    (b : Fin B) (n : Fin N) : Bool :=
  (List.finRange T).any fun t => masks b n t 0 == 0

/-- Fractional sequence length `seq_lens = torch.sum(1 - masks[:, :, :, 0], dim=-1)`. -/
def seqLen {B N T dM : ℕ} (masks : Fin B → Fin N → Fin T → Fin (dM + 1) → ℚ)
    (b : Fin B) (n : Fin N) : ℚ :=
  ∑ t, (1 - masks b n t 0)

/-- Integer sequence length as consumed by `pack_padded_sequence` (the float
lengths are cast to int64). -/
def lenNat (q : ℚ) : ℕ := ⌊q⌋.toNat

/-- The full padded time sequence of one entity: one row of the compacted
`feat_embedding_batched` tensor after `view(-1, T, dE)`. -/
def featSeq {B N T dE : ℕ} (feat : Fin B → Fin N → Fin T → Fin dE → ℚ)
    (b : Fin B) (n : Fin N) : List (Fin dE → ℚ) :=
  (List.finRange T).map (feat b n)

/-- Compacted feature batch: `torch.masked_select(feat_embedding,
masks_for_batching).view(-1, T, dE)`, one entry per valid entity, in row-major
order. -/
def featBatched {B N T dE dM : ℕ} (feat : Fin B → Fin N → Fin T → Fin dE → ℚ)
    (masks : Fin B → Fin N → Fin T → Fin (dM + 1) → ℚ) :
    List (List (Fin dE → ℚ)) :=
  ((gridPairs B N).filter fun p => entityValid masks p.1 p.2).map fun p =>
    featSeq feat p.1 p.2

/-- Compacted nonzero lengths: `seq_lens[seq_lens != 0]`, row-major. -/
def lensBatched {B N T dM : ℕ}
    (masks : Fin B → Fin N → Fin T → Fin (dM + 1) → ℚ) : List ℚ :=
  ((gridPairs B N).map fun p => seqLen masks p.1 p.2).filter fun q => q != 0

/-- Final hidden states of the recurrent summarizer over the packed batch: the
`k`-th compacted sequence is run for its `k`-th compacted length (the packed
representation keeps only the first `len` steps of each padded row). -/
def encBatched {B N T dE dM h : ℕ} (feat : Fin B → Fin N → Fin T → Fin dE → ℚ)
    (masks : Fin B → Fin N → Fin T → Fin (dM + 1) → ℚ)
    (gru : List (Fin dE → ℚ) → Fin h → ℚ) : List (Fin h → ℚ) :=
  ((featBatched feat masks).zip (lensBatched masks)).map fun s =>
    gru (s.1.take (lenNat s.2))

/-- Shallow embedding of `PGPEncoder.variable_size_gru_encode`.  If the
compacted batch is nonempty, the compacted encodings are scattered back to
their row-major grid positions over a zero-filled output; otherwise the
recurrent summarizer is never consulted and the all-zero tensor of shape
`[B, N, h]` is returned. -/
def variableSizeGruEncode {B N T dE dM h : ℕ}
    (feat : Fin B → Fin N → Fin T → Fin dE → ℚ)
    (masks : Fin B → Fin N → Fin T → Fin (dM + 1) → ℚ)
    (gru : List (Fin dE → ℚ) → Fin h → ℚ) :
    Fin B → Fin N → Fin h → ℚ :=
  if (lensBatched masks).length ≠ 0 then
    fun b n =>
      (scatterBack (fun _ => (0 : ℚ))
        ((gridPairs B N).map fun p => entityValid masks p.1 p.2)
        (encBatched feat masks gru)).getD ((b : ℕ) * N + (n : ℕ)) (fun _ => 0)
  else fun _ _ _ => 0

/-- The row-major grid enumeration has length `B * N`. -/
theorem gridPairs_length (B N : ℕ) : (gridPairs B N).length = B * N := by
  simp [gridPairs, List.length_flatMap, Function.comp_def]

/-- Entity validity unfolded: some time step has first mask entry zero. -/
theorem entityValid_iff {B N T dM : ℕ}
    (masks : Fin B → Fin N → Fin T → Fin (dM + 1) → ℚ) (b : Fin B) (n : Fin N) :
    entityValid masks b n = true ↔ ∃ t, masks b n t 0 = 0 := by
  simp [entityValid]

/-- Under a {0,1}-valued mask, an entity's float sequence length is nonzero
exactly when the entity is valid, so the two compaction criteria used by the
source (`masks_for_batching` versus `seq_lens != 0`) agree. -/
theorem seqLen_bne_eq_entityValid {B N T dM : ℕ}
    (masks : Fin B → Fin N → Fin T → Fin (dM + 1) → ℚ)
    (hm : ∀ b n t, masks b n t 0 = 0 ∨ masks b n t 0 = 1)
    (b : Fin B) (n : Fin N) :
    (seqLen masks b n != 0) = entityValid masks b n := by
  rw [Bool.eq_iff_iff, bne_iff_ne, ne_eq, entityValid_iff]
  constructor
  · intro hne
    by_contra hall
    push_neg at hall
    apply hne
    apply Finset.sum_eq_zero
    intro t _
    rcases hm b n t with h0 | h1
    · exact absurd h0 (hall t)
    · rw [h1]; ring
  · rintro ⟨t, ht⟩ h0
    have hnonneg : ∀ s ∈ Finset.univ, (0 : ℚ) ≤ 1 - masks b n s 0 := by
      intro s _
      rcases hm b n s with h | h <;> rw [h] <;> norm_num
    have := (Finset.sum_eq_zero_iff_of_nonneg hnonneg).mp h0 t (Finset.mem_univ t)
    rw [ht] at this
    norm_num at this

/-- Under a {0,1}-valued mask the compacted length list is the valid-entity
filter of the grid, in the same order as the compacted feature batch. -/
theorem lensBatched_eq {B N T dM : ℕ}
    (masks : Fin B → Fin N → Fin T → Fin (dM + 1) → ℚ)
    (hm : ∀ b n t, masks b n t 0 = 0 ∨ masks b n t 0 = 1) :
    lensBatched masks
      = ((gridPairs B N).filter fun p => entityValid masks p.1 p.2).map fun p =>
          seqLen masks p.1 p.2 := by
  unfold lensBatched
  rw [List.filter_map]
  congr 1
  apply List.filter_congr
  intro p _
  exact seqLen_bne_eq_entityValid masks hm p.1 p.2

/-- Under a {0,1}-valued mask, the `k`-th compacted encoding is the recurrent
summary of the `k`-th valid entity's own (length-truncated) sequence. -/
theorem encBatched_eq {B N T dE dM h : ℕ}
    (feat : Fin B → Fin N → Fin T → Fin dE → ℚ)
    (masks : Fin B → Fin N → Fin T → Fin (dM + 1) → ℚ)
    (gru : List (Fin dE → ℚ) → Fin h → ℚ)
    (hm : ∀ b n t, masks b n t 0 = 0 ∨ masks b n t 0 = 1) :
    encBatched feat masks gru
      = ((gridPairs B N).filter fun p => entityValid masks p.1 p.2).map fun p =>
          gru ((featSeq feat p.1 p.2).take (lenNat (seqLen masks p.1 p.2))) := by
  unfold encBatched featBatched
  rw [lensBatched_eq masks hm, List.zip_map', List.map_map]
  rfl

/-- Pointwise characterization of `variable_size_gru_encode` under a
{0,1}-valued mask: zero at fully-invalid entities, the entity's own recurrent
summary at valid ones. -/
theorem variableSizeGruEncode_char {B N T dE dM h : ℕ}
    (feat : Fin B → Fin N → Fin T → Fin dE → ℚ)
    (masks : Fin B → Fin N → Fin T → Fin (dM + 1) → ℚ)
    (gru : List (Fin dE → ℚ) → Fin h → ℚ)
    (hm : ∀ b n t, masks b n t 0 = 0 ∨ masks b n t 0 = 1) :
    ∀ (b : Fin B) (n : Fin N),
      ((∀ t, masks b n t 0 ≠ 0) →
        ∀ j, variableSizeGruEncode feat masks gru b n j = 0) ∧
      ((∃ t, masks b n t 0 = 0) →
        variableSizeGruEncode feat masks gru b n
          = gru ((featSeq feat b n).take (lenNat (seqLen masks b n)))) := by
  intro b n
  unfold variableSizeGruEncode
  by_cases hc : (lensBatched masks).length ≠ 0
  · rw [if_pos hc]
    have hidx : (b : ℕ) * N + (n : ℕ) < (gridPairs B N).length := by
      rw [gridPairs_length]
      have hb1 : (b : ℕ) + 1 ≤ B := b.isLt
      calc (b : ℕ) * N + (n : ℕ) < (b : ℕ) * N + N := by omega
        _ = ((b : ℕ) + 1) * N := by ring
        _ ≤ B * N := Nat.mul_le_mul_right N hb1
    rw [encBatched_eq feat masks gru hm,
      scatterBack_map_filter (fun _ => (0 : ℚ))
        (fun p => entityValid masks p.1 p.2)
        (fun p => gru ((featSeq feat p.1 p.2).take (lenNat (seqLen masks p.1 p.2))))
        (gridPairs B N)]
    have hgrid : (gridPairs B N).getD ((b : ℕ) * N + (n : ℕ)) (b, n) = (b, n) :=
      gridPairs_getD b n (b, n)
    rw [List.getD_eq_getElem _ _ (by simpa using hidx), List.getElem_map]
    rw [List.getD_eq_getElem _ _ hidx] at hgrid
    rw [hgrid]
    constructor
    · intro hinv j
      have hv : entityValid masks b n = false := by
        rw [Bool.eq_false_iff, ne_eq, entityValid_iff]
        rintro ⟨t, ht⟩
        exact hinv t ht
      rw [hv]
      simp
    · intro hval
      have hv : entityValid masks b n = true := (entityValid_iff masks b n).mpr hval
      rw [hv]
      simp
  · rw [if_neg hc]
    push_neg at hc
    constructor
    · intro _ _
      rfl
    · intro hval
      exfalso
      have hv : entityValid masks b n = true := (entityValid_iff masks b n).mpr hval
      have hmem : (b, n) ∈ (gridPairs B N).filter fun p => entityValid masks p.1 p.2 := by
        rw [List.mem_filter]
        refine ⟨?_, hv⟩
        unfold gridPairs
        simp only [List.mem_flatMap, List.mem_map, List.mem_finRange]
        exact ⟨b, trivial, n, trivial, rfl⟩
      have hlen : (lensBatched masks).length ≠ 0 := by
        rw [lensBatched_eq masks hm, List.length_map]
        intro h0
        rw [List.length_eq_zero] at h0
        rw [h0] at hmem
        exact absurd hmem (List.not_mem_nil _)
      exact hlen hc

/-- C6: for every input with a {0,1}-valued mask tensor, the encoding returned
by `variable_size_gru_encode` is exactly the zero vector at every
(batch, entity) position whose entity has zero valid (non-padded) time steps,
and every valid entity receives its own compacted recurrent encoding back at
its original position. -/
theorem variableSizeGruEncode_scatter {B N T dE dM h : ℕ}
    (feat : Fin B → Fin N → Fin T → Fin dE → ℚ)
    (masks : Fin B → Fin N → Fin T → Fin (dM + 1) → ℚ)
    (gru : List (Fin dE → ℚ) → Fin h → ℚ)
    (hm : ∀ b n t, masks b n t 0 = 0 ∨ masks b n t 0 = 1) :
    ∀ (b : Fin B) (n : Fin N),
      ((∀ t, masks b n t 0 ≠ 0) →
        ∀ j, variableSizeGruEncode feat masks gru b n j = 0) ∧
      ((∃ t, masks b n t 0 = 0) →
        variableSizeGruEncode feat masks gru b n
          = gru ((featSeq feat b n).take (lenNat (seqLen masks b n)))) :=
  variableSizeGruEncode_char feat masks gru hm

/-- Concrete feature tensor for the C6 witness. -/
def wFeatC6 : Fin 1 → Fin 1 → Fin 1 → Fin 1 → ℚ := fun _ _ _ _ => 5

/-- Concrete (all-valid, {0,1}-valued) mask tensor for the C6 witness. -/
def wMaskC6 : Fin 1 → Fin 1 → Fin 1 → Fin (0 + 1) → ℚ := fun _ _ _ _ => 0

/-- Concrete recurrent summarizer for the C6 witness: first entry of the first
step. -/
def wGruC6 : List (Fin 1 → ℚ) → Fin 1 → ℚ := fun s _ => s.headD (fun _ => 0) 0

/-- Witness for C6 at a concrete one-entity input: the mask is {0,1}-valued and
the characterization holds there. -/
theorem variableSizeGruEncode_scatter_witness :
    (∀ (b n : Fin 1) (t : Fin 1), wMaskC6 b n t 0 = 0 ∨ wMaskC6 b n t 0 = 1) ∧
    (∀ (b n : Fin 1),
      ((∀ t, wMaskC6 b n t 0 ≠ 0) →
        ∀ j, variableSizeGruEncode wFeatC6 wMaskC6 wGruC6 b n j = 0) ∧
      ((∃ t, wMaskC6 b n t 0 = 0) →
        variableSizeGruEncode wFeatC6 wMaskC6 wGruC6 b n
          = wGruC6 ((featSeq wFeatC6 b n).take (lenNat (seqLen wMaskC6 b n))))) :=
  ⟨by decide, variableSizeGruEncode_scatter wFeatC6 wMaskC6 wGruC6 (by decide)⟩

/-- C5: when every entity of every example has zero valid time steps (the mask
first column is identically one), the encoder returns the all-zero tensor of
shape `[B, N, h]` for every recurrent summarizer, so the recurrent call is
never consulted and no error occurs. -/
theorem variableSizeGruEncode_allInvalid {B N T dE dM h : ℕ}
    (feat : Fin B → Fin N → Fin T → Fin dE → ℚ)
    (masks : Fin B → Fin N → Fin T → Fin (dM + 1) → ℚ)
    (hinv : ∀ b n t, masks b n t 0 = 1) :
    ∀ gru : List (Fin dE → ℚ) → Fin h → ℚ,
      variableSizeGruEncode feat masks gru = fun _ _ _ => 0 := by
  intro gru
  have hlens : lensBatched masks = [] := by
    unfold lensBatched
    rw [List.filter_eq_nil_iff]
    intro q hq
    rw [List.mem_map] at hq
    obtain ⟨p, _, hp⟩ := hq
    have hzero : seqLen masks p.1 p.2 = 0 := by
      apply Finset.sum_eq_zero
      intro t _
      rw [hinv]
      ring
    rw [← hp, hzero]
    simp
  unfold variableSizeGruEncode
  rw [hlens]
  simp

/-- Concrete feature tensor for the C5 witness. -/
def wFeatC5 : Fin 2 → Fin 2 → Fin 3 → Fin 4 → ℚ := fun _ _ _ _ => 7

/-- Concrete all-invalid mask tensor for the C5 witness. -/
def wMaskC5 : Fin 2 → Fin 2 → Fin 3 → Fin (0 + 1) → ℚ := fun _ _ _ _ => 1

/-- Witness for C5 at a concrete all-invalid input. -/
theorem variableSizeGruEncode_allInvalid_witness :
    (∀ (b n : Fin 2) (t : Fin 3), wMaskC5 b n t 0 = 1) ∧
    (∀ gru : List (Fin 4 → ℚ) → Fin 2 → ℚ,
      variableSizeGruEncode wFeatC5 wMaskC5 gru = fun _ _ _ => 0) :=
  ⟨by decide, variableSizeGruEncode_allInvalid wFeatC5 wMaskC5 (by decide)⟩

/-! ## Adjacency builder

Shallow embedding of `PGPEncoder.build_adj_mat`.  The float tables `s_next`
and `edge_type` are modelled in `ℤ` (they hold integer node indices and edge
classes; `.long()` truncation is the identity on them).  PyTorch advanced
indexing accepts indices in `[-M, M)` with negative wraparound and raises
otherwise, so the adjacency result is an `Except`; the in-place mutation of
`s_next` (which happens before the indexing assignment) is returned
alongside. -/

/-- Wraparound normalization of a PyTorch advanced index into axis length `M`:
an in-range negative index `v` addresses position `v + M`. -/
def wrapIdx (M : ℕ) (hM : 0 < M) (v : ℤ) : Fin M :=
  ⟨(v % (M : ℤ)).toNat, by
    have h0 : (0 : ℤ) < (M : ℤ) := by exact_mod_cast hM
    have h1 : 0 ≤ v % (M : ℤ) := Int.emod_nonneg v (by omega)
    have h2 : v % (M : ℤ) < (M : ℤ) := Int.emod_lt_of_pos v h0
    omega⟩

/-- In-place dummy correction `s_next[edge_type == 0] = dummy_vals[edge_type == 0]`:
each no-edge slot's destination becomes its own source node index. -/
def dummyCorrected {B M E : ℕ} (sNext edgeType : Fin B → Fin M → Fin E → ℤ) :
    Fin B → Fin M → Fin E → ℤ :=
  fun b i k => if edgeType b i k = 0 then (i : ℤ) else sNext b i k

/-- Per-batch-entry identity matrix (self-loops), the initial adjacency. -/
def adjInit {B M : ℕ} : Fin B → Fin M → Fin M → Bool := fun _ i j => i == j

/-- Index triples `(batch, src, slot)` covered by the advanced-indexing
assignment: every edge slot except the last of each node (the `[:, :, :-1]`
slices), in row-major order. -/
def adjTriples (B M E : ℕ) : List (Fin B × Fin M × Fin E) :=
  (List.finRange B).flatMap fun b =>
    (List.finRange M).flatMap fun i =>
      ((List.finRange E).filter fun k : Fin E => decide ((k : ℕ) < E - 1)).map
        fun k => (b, i, k)

/-- One element of the advanced-indexing assignment `adj_mat[b, i, j] = True`. -/
def setTrue {B M : ℕ} (adj : Fin B → Fin M → Fin M → Bool) (b : Fin B)
    (i j : Fin M) : Fin B → Fin M → Fin M → Bool :=
  fun b' i' j' => if b' = b ∧ i' = i ∧ j' = j then true else adj b' i' j'

/-- Target `(batch, row, column)` cell of the assignment generated by one edge
slot triple: batch and source row of the slot, wrapped destination index. -/
def adjTarget {B M E : ℕ} (s' : Fin B → Fin M → Fin E → ℤ)
    (t : Fin B × Fin M × Fin E) : Fin B × Fin M × Fin M :=
  (t.1, t.2.1, wrapIdx M t.2.1.pos (s' t.1 t.2.1 t.2.2))

/-- The assignment loop: starting from the identity, set
`adj_mat[b, i, s_next'[b, i, k]] = True` over all covered slots. -/
def adjAssigned {B M E : ℕ} (s' : Fin B → Fin M → Fin E → ℤ) :
    Fin B → Fin M → Fin M → Bool :=
  (adjTriples B M E).foldl
    (fun adj t => setTrue adj (adjTarget s' t).1 (adjTarget s' t).2.1 (adjTarget s' t).2.2)
    adjInit

/-- Range condition under which the advanced-indexing assignment of
`build_adj_mat` is defined: every covered destination index lies in
`[-M, M)`. -/
def adjIndicesOk {B M E : ℕ} (s' : Fin B → Fin M → Fin E → ℤ) : Prop :=
  ∀ (b : Fin B) (i : Fin M) (k : Fin E), (k : ℕ) < E - 1 →
    -(M : ℤ) ≤ s' b i k ∧ s' b i k < M

instance {B M E : ℕ} (s' : Fin B → Fin M → Fin E → ℤ) :
    Decidable (adjIndicesOk s') := by
  unfold adjIndicesOk
  infer_instance

/-- Shallow embedding of `PGPEncoder.build_adj_mat`, exposing its frame
effect.  The first component is the argument tensor as left behind by the call
(mutated in place, never restored); the second is the symmetrized adjacency
matrix, or the indexing error when some covered destination index is out of
range. -/
def buildAdjMatRun {B M E : ℕ} (sNext edgeType : Fin B → Fin M → Fin E → ℤ) :
    (Fin B → Fin M → Fin E → ℤ) × Except String (Fin B → Fin M → Fin M → Bool) :=
  (dummyCorrected sNext edgeType,
    if adjIndicesOk (dummyCorrected sNext edgeType) then
      Except.ok fun b i j =>
        adjAssigned (dummyCorrected sNext edgeType) b i j ||
        adjAssigned (dummyCorrected sNext edgeType) b j i
    else Except.error "IndexError: adjacency destination index out of range")

/-- Declarative adjacency matrix following the spec's algorithm in §4.4 word
for word: start from the identity, replace the destination of no-edge slots by
the slot's own source index, mark `adjacency[src, dest]` for every slot except
the last of each node, and finally OR with the transpose. -/
def buildAdjMatSpec {B M E : ℕ} (sNext edgeType : Fin B → Fin M → Fin E → ℤ) :
    Fin B → Fin M → Fin M → Bool :=
  let s' := dummyCorrected sNext edgeType
  let marked : Fin B → Fin M → Fin M → Bool := fun b i j =>
    i == j || decide (∃ k : Fin E, (k : ℕ) < E - 1 ∧ wrapIdx M i.pos (s' b i k) = j)
  fun b i j => marked b i j || marked b j i

/-- Folding `setTrue` assignments leaves an entry true iff it was true
initially or some assignment targets it. -/
theorem foldl_setTrue {B M : ℕ} {α : Type} (tgt : α → Fin B × Fin M × Fin M) :
    ∀ (L : List α) (init : Fin B → Fin M → Fin M → Bool) (b : Fin B) (i j : Fin M),
      (L.foldl (fun adj a => setTrue adj (tgt a).1 (tgt a).2.1 (tgt a).2.2) init) b i j
        = (init b i j || L.any fun a => tgt a == (b, i, j))
  | [], init, b, i, j => by simp
  | a :: L, init, b, i, j => by
    rw [List.foldl_cons, foldl_setTrue tgt L _ b i j, List.any_cons]
    have hstep : setTrue init (tgt a).1 (tgt a).2.1 (tgt a).2.2 b i j
        = (init b i j || (tgt a == (b, i, j))) := by
      unfold setTrue
      by_cases hhit : b = (tgt a).1 ∧ i = (tgt a).2.1 ∧ j = (tgt a).2.2
      · rw [if_pos hhit]
        have : tgt a == (b, i, j) := by
          obtain ⟨h1, h2, h3⟩ := hhit
          subst h1 h2 h3
          simp
        rw [this]
        simp
      · rw [if_neg hhit]
        have : (tgt a == (b, i, j)) = false := by
          rw [beq_eq_false_iff_ne]
          intro hEq
          apply hhit
          rw [hEq]
          exact ⟨rfl, rfl, rfl⟩
        rw [this]
        simp
    rw [hstep, Bool.or_assoc]

/-- Characterization of the assignment loop: an entry of the pre-symmetrized
adjacency is true iff it is on the diagonal or some covered edge slot of its
source row targets it. -/
theorem adjAssigned_eq {B M E : ℕ} (s' : Fin B → Fin M → Fin E → ℤ)
    (b : Fin B) (i j : Fin M) :
    adjAssigned s' b i j
      = (i == j ||
          decide (∃ k : Fin E, (k : ℕ) < E - 1 ∧ wrapIdx M i.pos (s' b i k) = j)) := by
  unfold adjAssigned
  rw [foldl_setTrue (adjTarget s')]
  unfold adjInit
  congr 1
  rw [Bool.eq_iff_iff, List.any_eq_true, decide_eq_true_eq]
  constructor
  · rintro ⟨t, hmem, htgt⟩
    unfold adjTriples at hmem
    simp only [List.mem_flatMap, List.mem_map, List.mem_filter,
      List.mem_finRange, true_and, decide_eq_true_eq] at hmem
    obtain ⟨b', i', k, hk, hteq⟩ := hmem
    rw [beq_iff_eq] at htgt
    rw [← hteq] at htgt
    unfold adjTarget at htgt
    obtain ⟨hb, hij⟩ := Prod.mk.injEq .. ▸ htgt
    obtain ⟨hi, hj⟩ := Prod.mk.injEq .. ▸ hij
    dsimp only at hb hi hj
    subst hb hi
    exact ⟨k, hk, hj⟩
  · rintro ⟨k, hk, hw⟩
    refine ⟨(b, i, k), ?_, ?_⟩
    · unfold adjTriples
      simp only [List.mem_flatMap, List.mem_map, List.mem_filter,
        List.mem_finRange, true_and, decide_eq_true_eq]
      exact ⟨b, i, k, hk, rfl⟩
    · unfold adjTarget
      rw [beq_iff_eq]
      dsimp only
      rw [hw]

/-- C3: whenever `build_adj_mat` returns an adjacency matrix, that matrix
equals its own transpose over the last two axes and has `true` on every
diagonal entry of every batch element. -/
theorem buildAdjMat_symm_diag {B M E : ℕ} (sNext edgeType : Fin B → Fin M → Fin E → ℤ)
    (A : Fin B → Fin M → Fin M → Bool)
    (h : (buildAdjMatRun sNext edgeType).2 = Except.ok A) :
    (∀ b i j, A b i j = A b j i) ∧ (∀ b i, A b i i = true) := by
  unfold buildAdjMatRun at h
  dsimp only at h
  by_cases hok : adjIndicesOk (dummyCorrected sNext edgeType)
  · rw [if_pos hok] at h
    have hA := (Except.ok.injEq _ _).mp h.symm
    constructor
    · intro b i j
      simp only [hA]
      exact Bool.or_comm _ _
    · intro b i
      simp only [hA, adjAssigned_eq]
      simp
  · rw [if_neg hok] at h
    exact absurd h (by simp)

/-- Concrete successor table for the C3 witness. -/
def wSNextC3 : Fin 1 → Fin 1 → Fin 1 → ℤ := fun _ _ _ => 0

/-- Concrete edge-type table for the C3 witness. -/
def wEdgeC3 : Fin 1 → Fin 1 → Fin 1 → ℤ := fun _ _ _ => 0

/-- Concrete adjacency output for the C3 witness. -/
def wAdjC3 : Fin 1 → Fin 1 → Fin 1 → Bool := fun _ _ _ => true

/-- Witness for C3: at a concrete input, `build_adj_mat` succeeds and the
returned matrix is symmetric with a true diagonal. -/
theorem buildAdjMat_symm_diag_witness :
    ((buildAdjMatRun wSNextC3 wEdgeC3).2 = Except.ok wAdjC3) ∧
    ((∀ b i j, wAdjC3 b i j = wAdjC3 b j i) ∧ (∀ b i, wAdjC3 b i i = true)) := by
  have h : (buildAdjMatRun wSNextC3 wEdgeC3).2 = Except.ok wAdjC3 := by
    unfold buildAdjMatRun
    dsimp only
    rw [if_pos (by decide)]
    congr 1
    funext b i j
    revert b i j
    decide
  exact ⟨h, buildAdjMat_symm_diag wSNextC3 wEdgeC3 wAdjC3 h⟩

/-- C4: `build_adj_mat` follows the specified algorithm.  Whenever the covered
destination indices are in range (so the indexing assignment is defined), the
returned matrix is exactly the declarative matrix built by: identity
initialization, dummy-correction of no-edge slots to their own source index,
marking `adjacency[src, dest]` for every edge slot except the last of each
node, and OR-ing with the transpose. -/
theorem buildAdjMat_follows_spec {B M E : ℕ}
    (sNext edgeType : Fin B → Fin M → Fin E → ℤ)
    (h : adjIndicesOk (dummyCorrected sNext edgeType)) :
    (buildAdjMatRun sNext edgeType).2 = Except.ok (buildAdjMatSpec sNext edgeType) := by
  unfold buildAdjMatRun buildAdjMatSpec
  dsimp only
  rw [if_pos h]
  congr 1
  funext b i j
  rw [adjAssigned_eq, adjAssigned_eq]

/-- Concrete successor table for the C4 witness: one real edge `0 → 1`. -/
def wSNextC4 : Fin 1 → Fin 2 → Fin 2 → ℤ :=
  fun _ i k => if i = 0 ∧ k = 0 then 1 else 5

/-- Concrete edge-type table for the C4 witness: slot `(0, 0)` is a real edge,
all other slots carry the no-edge sentinel. -/
def wEdgeC4 : Fin 1 → Fin 2 → Fin 2 → ℤ :=
  fun _ i k => if i = 0 ∧ k = 0 then 1 else 0

/-- Witness for C4 at a concrete input with a real edge and sentinel slots. -/
theorem buildAdjMat_follows_spec_witness :
    adjIndicesOk (dummyCorrected wSNextC4 wEdgeC4) ∧
    (buildAdjMatRun wSNextC4 wEdgeC4).2 = Except.ok (buildAdjMatSpec wSNextC4 wEdgeC4) :=
  ⟨by decide, buildAdjMat_follows_spec wSNextC4 wEdgeC4 (by decide)⟩

/-! ## Goal-conditioned aggregator: goal probability head

Shallow embedding of `GoalConditioned.compute_goal_probs`.  The head
concatenates the (node-broadcast) target-agent encoding with each node
encoding, compacts the valid rows (`masked_select`), pushes them through the
two-layer scored head, scatters the scores back over a zero tensor
(`masked_scatter_`), adds `log(1 - mask)` and log-softmaxes over the node
axis.  The returned log-space tensor holds `-inf` at masked entries, so the
embedding represents its exponential `exp(goal_log_probs)`: the
`log(1 - mask)` summand becomes the factor `1 - mask`, and the log-softmax
becomes normalization by the total weight.  `torch.exp` on head scores is the
abstract parameter `E`; strict positivity of `E` is the only fact about it the
properties use. -/

/-- Generic grid compact-and-scatter read-back: position `(b, n)` of the
scattered tensor holds its own selected value when its flag is set and the
fill value otherwise. -/
theorem scatterGrid_apply {B N : ℕ} {β : Type} (z : β)
    (v : Fin B × Fin N → Bool) (f : Fin B × Fin N → β) (b : Fin B) (n : Fin N) :
    (scatterBack z ((gridPairs B N).map v) (((gridPairs B N).filter v).map f)).getD
        ((b : ℕ) * N + (n : ℕ)) z
      = if v (b, n) then f (b, n) else z := by
  have hidx : (b : ℕ) * N + (n : ℕ) < (gridPairs B N).length := by
    rw [gridPairs_length]
    have hb1 : (b : ℕ) + 1 ≤ B := b.isLt
    calc (b : ℕ) * N + (n : ℕ) < (b : ℕ) * N + N := by omega
      _ = ((b : ℕ) + 1) * N := by ring
      _ ≤ B * N := Nat.mul_le_mul_right N hb1
  rw [scatterBack_map_filter z v f (gridPairs B N)]
  have hgrid : (gridPairs B N).getD ((b : ℕ) * N + (n : ℕ)) (b, n) = (b, n) :=
    gridPairs_getD b n (b, n)
  rw [List.getD_eq_getElem _ _ (by simpa using hidx), List.getElem_map]
  rw [List.getD_eq_getElem _ _ hidx] at hgrid
  rw [hgrid]

/-- Goal head score of one compacted row:
`goal_op(leaky_relu(goal_h2(leaky_relu(goal_h1(x)))))`. -/
def goalHeadScore {dt dn g1 g2 : ℕ}
    (W1 : Fin g1 → Fin (dt + dn) → ℚ) (b1 : Fin g1 → ℚ)
    (W2 : Fin g2 → Fin g1 → ℚ) (b2 : Fin g2 → ℚ)
    (w3 : Fin g2 → ℚ) (b3 : ℚ) (x : Fin (dt + dn) → ℚ) : ℚ :=
  (∑ k, w3 k * leakyVec (linear W2 b2 (leakyVec (linear W1 b1 x))) k) + b3

/-- The `goal_ops` tensor: zeros, masked-scattered with the head scores of the
valid rows.  `masked_select` and `masked_scatter_` both use the validity mask
`~node_masks.bool()` (a node is valid when its mask entry is zero) and
traverse the `[batch, node]` grid row-major. -/
def goalOps {B M dt dn g1 g2 : ℕ}
    (W1 : Fin g1 → Fin (dt + dn) → ℚ) (b1 : Fin g1 → ℚ)
    (W2 : Fin g2 → Fin g1 → ℚ) (b2 : Fin g2 → ℚ)
    (w3 : Fin g2 → ℚ) (b3 : ℚ)
    (targetEnc : Fin B → Fin dt → ℚ) (nodeEnc : Fin B → Fin M → Fin dn → ℚ)
    (nodeMasks : Fin B → Fin M → ℚ) : Fin B → Fin M → ℚ :=
  fun b i =>
    (scatterBack 0 ((gridPairs B M).map fun p => nodeMasks p.1 p.2 == 0)
      (((gridPairs B M).filter fun p => nodeMasks p.1 p.2 == 0).map fun p =>
        goalHeadScore W1 b1 W2 b2 w3 b3
          (catVec (targetEnc p.1) (nodeEnc p.1 p.2)))).getD
      ((b : ℕ) * M + (i : ℕ)) 0

/-- Pointwise characterization of `goal_ops`: a valid node carries its own
head score, a masked node carries the scatter fill value zero. -/
theorem goalOps_eq {B M dt dn g1 g2 : ℕ}
    (W1 : Fin g1 → Fin (dt + dn) → ℚ) (b1 : Fin g1 → ℚ)
    (W2 : Fin g2 → Fin g1 → ℚ) (b2 : Fin g2 → ℚ)
    (w3 : Fin g2 → ℚ) (b3 : ℚ)
    (targetEnc : Fin B → Fin dt → ℚ) (nodeEnc : Fin B → Fin M → Fin dn → ℚ)
    (nodeMasks : Fin B → Fin M → ℚ) (b : Fin B) (i : Fin M) :
    goalOps W1 b1 W2 b2 w3 b3 targetEnc nodeEnc nodeMasks b i
      = if nodeMasks b i == 0
        then goalHeadScore W1 b1 W2 b2 w3 b3 (catVec (targetEnc b) (nodeEnc b i))
        else 0 := by
  unfold goalOps
  exact scatterGrid_apply 0 (fun p => nodeMasks p.1 p.2 == 0)
    (fun p => goalHeadScore W1 b1 W2 b2 w3 b3 (catVec (targetEnc p.1) (nodeEnc p.1 p.2)))
    b i

/-- Exponential-domain embedding of `GoalConditioned.compute_goal_probs`:
`exp(log_softmax(goal_ops + log(1 - node_masks), dim=1))`.  In the exponential
domain the `log(1 - mask)` summand is the weight factor `1 - mask` and the
log-softmax is normalization of the weights along the node axis. -/
def computeGoalProbsExp {B M dt dn g1 g2 : ℕ}
    (W1 : Fin g1 → Fin (dt + dn) → ℚ) (b1 : Fin g1 → ℚ)
    (W2 : Fin g2 → Fin g1 → ℚ) (b2 : Fin g2 → ℚ)
    (w3 : Fin g2 → ℚ) (b3 : ℚ) (E : ℚ → ℚ)
    (targetEnc : Fin B → Fin dt → ℚ) (nodeEnc : Fin B → Fin M → Fin dn → ℚ)
    (nodeMasks : Fin B → Fin M → ℚ) : Fin B → Fin M → ℚ :=
  fun b i =>
    (1 - nodeMasks b i) * E (goalOps W1 b1 W2 b2 w3 b3 targetEnc nodeEnc nodeMasks b i) /
      ∑ j, (1 - nodeMasks b j) * E (goalOps W1 b1 W2 b2 w3 b3 targetEnc nodeEnc nodeMasks b j)

/-- C1 (amended): for every {0,1}-valued node validity mask in which each
example keeps at least one valid node, and every strictly positive
exponential, the exponentiated goal log-probabilities of each example sum to 1
across the node axis and are exactly 0 at every masked-invalid node
position. -/
theorem computeGoalProbsExp_sum_one {B M dt dn g1 g2 : ℕ}
    (W1 : Fin g1 → Fin (dt + dn) → ℚ) (b1 : Fin g1 → ℚ)
    (W2 : Fin g2 → Fin g1 → ℚ) (b2 : Fin g2 → ℚ)
    (w3 : Fin g2 → ℚ) (b3 : ℚ) (E : ℚ → ℚ)
    (targetEnc : Fin B → Fin dt → ℚ) (nodeEnc : Fin B → Fin M → Fin dn → ℚ)
    (nodeMasks : Fin B → Fin M → ℚ)
    (hm : ∀ b i, nodeMasks b i = 0 ∨ nodeMasks b i = 1)
    (hE : ∀ x, 0 < E x)
    (hvalid : ∀ b, ∃ i, nodeMasks b i = 0) :
    ∀ b,
      (∑ i, computeGoalProbsExp W1 b1 W2 b2 w3 b3 E targetEnc nodeEnc nodeMasks b i) = 1 ∧
      (∀ i, nodeMasks b i = 1 →
        computeGoalProbsExp W1 b1 W2 b2 w3 b3 E targetEnc nodeEnc nodeMasks b i = 0) := by
  intro b
  set g := goalOps W1 b1 W2 b2 w3 b3 targetEnc nodeEnc nodeMasks with hg
  have hterm_nonneg : ∀ j : Fin M, 0 ≤ (1 - nodeMasks b j) * E (g b j) := by
    intro j
    rcases hm b j with h | h <;> rw [h] <;>
      [exact le_of_lt (by simpa using hE (g b j)); simp]
  have hS_pos : 0 < ∑ j, (1 - nodeMasks b j) * E (g b j) := by
    obtain ⟨i0, hi0⟩ := hvalid b
    apply Finset.sum_pos'
    · intro j _
      exact hterm_nonneg j
    · refine ⟨i0, Finset.mem_univ i0, ?_⟩
      rw [hi0]
      simpa using hE (g b i0)
  constructor
  · unfold computeGoalProbsExp
    rw [← Finset.sum_div]
    rw [div_eq_one_iff_eq (ne_of_gt hS_pos)]
  · intro i hi
    unfold computeGoalProbsExp
    rw [← hg, hi]
    simp

/-- Concrete goal-head first-layer weights for the C1 witness. -/
def wW1C1 : Fin 1 → Fin (1 + 1) → ℚ := fun _ _ => 0

/-- Concrete length-1 bias/weight vector for the C1 witness. -/
def wVecC1 : Fin 1 → ℚ := fun _ => 0

/-- Concrete 1×1 matrix (second-layer weights, also the target encoding) for
the C1 witness. -/
def wMatC1 : Fin 1 → Fin 1 → ℚ := fun _ _ => 0

/-- Concrete node encodings for the C1 witness. -/
def wNodeEncC1 : Fin 1 → Fin 2 → Fin 1 → ℚ := fun _ _ _ => 0

/-- Concrete node mask for the C1 witness: node 0 valid, node 1 invalid. -/
def wMaskC1 : Fin 1 → Fin 2 → ℚ := fun _ i => if i = 0 then 0 else 1

/-- Concrete positive stand-in for `torch.exp` in the C1 witness. -/
def wExpC1 : ℚ → ℚ := fun _ => 1

/-- Witness for C1 at a concrete one-example, two-node input with one valid
and one masked node. -/
theorem computeGoalProbsExp_sum_one_witness :
    (∀ (b : Fin 1) (i : Fin 2), wMaskC1 b i = 0 ∨ wMaskC1 b i = 1) ∧
    (∀ x, 0 < wExpC1 x) ∧
    (∀ b : Fin 1, ∃ i, wMaskC1 b i = 0) ∧
    (∀ b : Fin 1,
      (∑ i, computeGoalProbsExp wW1C1 wVecC1 wMatC1 wVecC1 wVecC1 0 wExpC1
        wMatC1 wNodeEncC1 wMaskC1 b i) = 1 ∧
      (∀ i, wMaskC1 b i = 1 →
        computeGoalProbsExp wW1C1 wVecC1 wMatC1 wVecC1 wVecC1 0 wExpC1
          wMatC1 wNodeEncC1 wMaskC1 b i = 0)) :=
  ⟨by decide, fun _ => one_pos, by decide,
    computeGoalProbsExp_sum_one wW1C1 wVecC1 wMatC1 wVecC1 wVecC1 0 wExpC1
      wMatC1 wNodeEncC1 wMaskC1 (by decide) (fun _ => one_pos) (by decide)⟩

/-- Concrete all-masked node mask for the C1 counterexample. -/
def cxMaskC1 : Fin 1 → Fin 1 → ℚ := fun _ _ => 1

/-- Concrete node encodings for the C1 counterexample. -/
def cxNodeEncC1 : Fin 1 → Fin 1 → Fin 1 → ℚ := fun _ _ _ => 0

/-- Counterexample to C1 as stated: for the (legitimate, {0,1}-valued) node
validity mask that marks every node of the example invalid, the exponentiated
goal probabilities do not sum to 1 (the masked softmax degenerates: every
weight is zero, and the source produces NaN from `0/0`; the embedding yields
0). -/
theorem computeGoalProbsExp_counterexample :
    (∀ (b i : Fin 1), cxMaskC1 b i = 0 ∨ cxMaskC1 b i = 1) ∧
    ¬ ((∑ i, computeGoalProbsExp wW1C1 wVecC1 wMatC1 wVecC1 wVecC1 0 wExpC1
        wMatC1 cxNodeEncC1 cxMaskC1 0 i) = 1) := by
  refine ⟨by decide, ?_⟩
  intro h
  rw [Fin.sum_univ_one] at h
  unfold computeGoalProbsExp at h
  rw [Fin.sum_univ_one] at h
  simp [cxMaskC1] at h

/-! ## Goal-conditioned aggregator: forward

Shallow embedding of `GoalConditioned.forward`.  The encodings dictionary is a
structure whose optional `node_seq_gt` key is an `Option`; reading a missing
key is the `KeyError` case.  The inherited `GlobalAttention` aggregation is an
abstract parameter `baseAgg` from the encodings to one context vector per
example.  Categorical sampling is an abstract parameter `sampler` from the
(repeated) probability tensor to drawn node indices; the ground-truth node
sequence holds integer-valued floats, modelled in `ℤ` (`.long()` truncation is
the identity on them). -/

/-- Encoder-output dictionary as consumed by `GoalConditioned.forward`:
`target_agent_encoding`, `context_encoding['combined']`,
`context_encoding['combined_masks']` and the optional `node_seq_gt` key
(shape `[B, L]`). -/
structure AggEncodings (B M dt dn L : ℕ) where
  targetAgentEncoding : Fin B → Fin dt → ℚ
  nodeEncodings : Fin B → Fin M → Fin dn → ℚ
  nodeMasks : Fin B → Fin M → ℚ
  nodeSeqGt : Option (Fin B → Fin L → ℤ)

/-- Output dictionary of `GoalConditioned.forward`: the goal-augmented
aggregated encoding `[B, num_samples, c + dn]` and the goal probabilities (in
the exponential domain, see `computeGoalProbsExp`). -/
structure AggOutput (B N M c dn : ℕ) where
  aggEncoding : Fin B → Fin N → Fin (c + dn) → ℚ
  goalProbsExp : Fin B → Fin M → ℚ

/-- Goal selection of `GoalConditioned.forward` (the `pre_train` branch):
in pretraining mode the goals are read from the last column of `node_seq_gt`,
shifted by `- max_nodes`, and replicated over the `N` samples (reading a
missing key raises, as does the `[:, -1]` column read on an empty sequence);
otherwise `N` categorical samples are drawn per example from the repeated
exponentiated goal probabilities. -/
def computeGoals {B M N L : ℕ} (preTrain training : Bool)
    (nodeSeqGt : Option (Fin B → Fin L → ℤ))
    (probs : Fin B → Fin M → ℚ)
    (sampler : (Fin B → Fin N → Fin M → ℚ) → Fin B → Fin N → ℤ) :
    Except String (Fin B → Fin N → ℤ) :=
  if preTrain && training then
    match nodeSeqGt with
    | none => Except.error "KeyError: node_seq_gt"
    | some g =>
      if hL : 0 < L then
        Except.ok fun b _ => g b ⟨L - 1, by omega⟩ - M
      else Except.error "IndexError: column -1 of an empty node_seq_gt"
  else
    Except.ok fun b k => sampler (fun b' _ i => probs b' i) b k

/-- Shallow embedding of `GoalConditioned.forward`: compute goal
probabilities, select goals (ground-truth in pretraining mode, sampled
otherwise), aggregate context through the inherited aggregator, repeat it over
the samples, gather the node encoding at each goal index (PyTorch advanced
indexing: wraparound for in-range negative indices, error outside `[-M, M)`)
and concatenate it onto the context. -/
def goalConditionedForward {B M N L dt dn g1 g2 c : ℕ}
    (preTrain training : Bool)
    (W1 : Fin g1 → Fin (dt + dn) → ℚ) (b1 : Fin g1 → ℚ)
    (W2 : Fin g2 → Fin g1 → ℚ) (b2 : Fin g2 → ℚ)
    (w3 : Fin g2 → ℚ) (b3 : ℚ) (E : ℚ → ℚ)
    (sampler : (Fin B → Fin N → Fin M → ℚ) → Fin B → Fin N → ℤ)
    (baseAgg : AggEncodings B M dt dn L → Fin B → Fin c → ℚ)
    (enc : AggEncodings B M dt dn L) :
    Except String (AggOutput B N M c dn) := do
  let probs := computeGoalProbsExp W1 b1 W2 b2 w3 b3 E
    enc.targetAgentEncoding enc.nodeEncodings enc.nodeMasks
  let goals ← computeGoals preTrain training enc.nodeSeqGt probs sampler
  if hidx : ∀ (b : Fin B) (k : Fin N), -(M : ℤ) ≤ goals b k ∧ goals b k < M then
    let aggEnc := baseAgg enc
    Except.ok
      ⟨fun b k =>
        catVec (aggEnc b)
          (enc.nodeEncodings b
            (wrapIdx M (by have := hidx b k; omega) (goals b k))),
        probs⟩
  else Except.error "IndexError: goal index out of range"

/-- C2: in pretraining mode (flag set and training), the goal indices are not
sampled: for every example they all equal the last entry of `node_seq_gt`
minus `max_nodes`, replicated across the `N` samples, for every sampler and
probability tensor (so no source of randomness is consulted). -/
theorem computeGoals_preTrain {B M N L : ℕ} (g : Fin B → Fin L → ℤ)
    (probs : Fin B → Fin M → ℚ)
    (sampler : (Fin B → Fin N → Fin M → ℚ) → Fin B → Fin N → ℤ)
    (hL : 0 < L) :
    computeGoals true true (some g) probs sampler
      = Except.ok (fun b (_ : Fin N) => g b ⟨L - 1, by omega⟩ - M) := by
  unfold computeGoals
  exact dif_pos hL

/-- Concrete ground-truth node sequence for the C2 witness. -/
def wGtC2 : Fin 1 → Fin 1 → ℤ := fun _ _ => 1

/-- Concrete probability tensor for the C2 witness. -/
def wProbsC2 : Fin 1 → Fin 2 → ℚ := fun _ _ => 0

/-- Concrete sampler for the C2 witness (drawing node 0 everywhere). -/
def wSamplerC2 : (Fin 1 → Fin 3 → Fin 2 → ℚ) → Fin 1 → Fin 3 → ℤ := fun _ _ _ => 0

/-- Witness for C2 at a concrete input with three samples and two nodes. -/
theorem computeGoals_preTrain_witness :
    0 < 1 ∧
    computeGoals true true (some wGtC2) wProbsC2 wSamplerC2
      = Except.ok (fun b (_ : Fin 3) => wGtC2 b ⟨1 - 1, by omega⟩ - 2) :=
  ⟨by decide, computeGoals_preTrain wGtC2 wProbsC2 wSamplerC2 (by decide)⟩

/-- C8: if the pretraining flag is set, the module is training, and the
encodings dictionary lacks `node_seq_gt`, the forward call fails loudly with
an error at the point of use instead of proceeding. -/
theorem goalConditionedForward_missing_gt {B M N L dt dn g1 g2 c : ℕ}
    (preTrain training : Bool)
    (W1 : Fin g1 → Fin (dt + dn) → ℚ) (b1 : Fin g1 → ℚ)
    (W2 : Fin g2 → Fin g1 → ℚ) (b2 : Fin g2 → ℚ)
    (w3 : Fin g2 → ℚ) (b3 : ℚ) (E : ℚ → ℚ)
    (sampler : (Fin B → Fin N → Fin M → ℚ) → Fin B → Fin N → ℤ)
    (baseAgg : AggEncodings B M dt dn L → Fin B → Fin c → ℚ)
    (enc : AggEncodings B M dt dn L)
    (hpre : preTrain = true) (htrain : training = true)
    (hgt : enc.nodeSeqGt = none) :
    ∃ msg, goalConditionedForward preTrain training W1 b1 W2 b2 w3 b3 E
      sampler baseAgg enc = Except.error msg := by
  refine ⟨"KeyError: node_seq_gt", ?_⟩
  subst hpre htrain
  unfold goalConditionedForward
  rw [hgt]
  rfl

/-- Concrete encodings dictionary without `node_seq_gt` for the C8 witness. -/
def wEncC8 : AggEncodings 1 1 1 1 1 :=
  ⟨fun _ _ => 0, fun _ _ _ => 0, fun _ _ => 0, none⟩

/-- Concrete sampler for the C8 witness. -/
def wSamplerC8 : (Fin 1 → Fin 1 → Fin 1 → ℚ) → Fin 1 → Fin 1 → ℤ := fun _ _ _ => 0

/-- Concrete base aggregator for the C8 witness. -/
def wBaseAggC8 : AggEncodings 1 1 1 1 1 → Fin 1 → Fin 1 → ℚ := fun _ _ _ => 0

/-- Witness for C8: at a concrete input with the key absent the call errors. -/
theorem goalConditionedForward_missing_gt_witness :
    (true = true ∧ wEncC8.nodeSeqGt = none) ∧
    ∃ msg, goalConditionedForward true true wW1C1 wVecC1 wMatC1 wVecC1 wVecC1 0
      wExpC1 wSamplerC8 wBaseAggC8 wEncC8 = Except.error msg :=
  ⟨⟨rfl, rfl⟩,
    goalConditionedForward_missing_gt true true wW1C1 wVecC1 wMatC1 wVecC1 wVecC1 0
      wExpC1 wSamplerC8 wBaseAggC8 wEncC8 rfl rfl rfl⟩

/-! ## PGP encoder: forward

Shallow embedding of `PGPEncoder.forward`.  The learned recurrences
(`nn.GRU`) are abstract parameters from step-vector lists to final hidden
states; the agent-node `nn.MultiheadAttention` block and the GAT layers are
abstract parameters at the tensor level (the `permute(1, 0, 2)` layout moves
around them are identities in this representation); linear embeddings,
LeakyReLU, the type-flag concatenation, the variable-size GRU encoder, the
adjacency construction and the mask collapse are concrete.  The optional
`init_node`/`node_seq_gt` keys are `Option`s; the forward reads
`inputs["node_seq_gt"]` only when `init_node` is present, and a missing key
raises. -/

/-- Appending a constant type-flag column to a feature vector
(`torch.cat((feats, flag_like(feats[..., 0:1])), dim=-1)`). -/
def appendFlag {d : ℕ} (flag : ℚ) (v : Fin d → ℚ) : Fin (d + 1) → ℚ :=
  fun j => if h : (j : ℕ) < d then v ⟨j, h⟩ else flag

/-- Input dictionary of `PGPEncoder.forward`. -/
structure PGPInputs (B Th dtf M P dnf E V Pd Tn dvf L : ℕ) where
  targetAgentRep : Fin B → Fin Th → Fin dtf → ℚ
  laneNodeFeats : Fin B → Fin M → Fin P → Fin (dnf + 1) → ℚ
  laneNodeMasks : Fin B → Fin M → Fin P → Fin (dnf + 1) → ℚ
  sNext : Fin B → Fin M → Fin E → ℤ
  edgeType : Fin B → Fin M → Fin E → ℤ
  vehicles : Fin B → Fin V → Fin Tn → Fin (dvf + 1) → ℚ
  vehicleMasks : Fin B → Fin V → Fin Tn → Fin (dvf + 1) → ℚ
  pedestrians : Fin B → Fin Pd → Fin Tn → Fin (dvf + 1) → ℚ
  pedestrianMasks : Fin B → Fin Pd → Fin Tn → Fin (dvf + 1) → ℚ
  agentNodeMasksVeh : Fin B → Fin M → Fin V → ℚ
  agentNodeMasksPed : Fin B → Fin M → Fin Pd → ℚ
  initNode : Option (Fin B → Fin M → ℚ)
  nodeSeqGt : Option (Fin B → Fin L → ℤ)

/-- Learned parameters and abstract submodules of `PGPEncoder`. -/
structure PGPWeights (B dtf dte hT M dnf dne h V Pd dvf dve hN : ℕ) where
  targetEmbW : Fin dte → Fin dtf → ℚ
  targetEmbB : Fin dte → ℚ
  targetGru : List (Fin dte → ℚ) → Fin hT → ℚ
  nodeEmbW : Fin dne → Fin (dnf + 1) → ℚ
  nodeEmbB : Fin dne → ℚ
  nodeGru : List (Fin dne → ℚ) → Fin h → ℚ
  nbrEmbW : Fin dve → Fin (dvf + 1 + 1) → ℚ
  nbrEmbB : Fin dve → ℚ
  nbrGru : List (Fin dve → ℚ) → Fin hN → ℚ
  queryW : Fin h → Fin h → ℚ
  queryB : Fin h → ℚ
  keyW : Fin h → Fin hN → ℚ
  keyB : Fin h → ℚ
  valW : Fin h → Fin hN → ℚ
  valB : Fin h → ℚ
  aNAtt : (Fin B → Fin M → Fin h → ℚ) → (Fin B → Fin (V + Pd) → Fin h → ℚ) →
    (Fin B → Fin (V + Pd) → Fin h → ℚ) → (Fin B → Fin M → Fin (V + Pd) → ℚ) →
    Fin B → Fin M → Fin h → ℚ
  mixW : Fin h → Fin (h + h) → ℚ
  mixB : Fin h → ℚ
  gats : List ((Fin B → Fin M → Fin h → ℚ) → (Fin B → Fin M → Fin M → Bool) →
    Fin B → Fin M → Fin h → ℚ)

/-- Output dictionary of `PGPEncoder.forward` (`None`-valued entries of
`context_encoding` omitted). -/
structure PGPEncodings (B M E L hT h : ℕ) where
  targetAgentEncoding : Fin B → Fin hT → ℚ
  combined : Fin B → Fin M → Fin h → ℚ
  combinedMasks : Fin B → Fin M → ℚ
  initNodeOut : Option (Fin B → Fin M → ℚ)
  nodeSeqGtOut : Option (Fin B → Fin L → ℤ)
  sNextOut : Option (Fin B → Fin M → Fin E → ℤ)
  edgeTypeOut : Option (Fin B → Fin M → Fin E → ℤ)

/-- Target-agent path: per-step linear embedding + LeakyReLU, recurrent
summary, squeeze. -/
def pgpTargetEnc {B Th dtf M P dnf E V Pd Tn dvf L dte hT dne h dve hN : ℕ}
    (w : PGPWeights B dtf dte hT M dnf dne h V Pd dvf dve hN)
    (inp : PGPInputs B Th dtf M P dnf E V Pd Tn dvf L) : Fin B → Fin hT → ℚ :=
  fun b => w.targetGru
    ((List.finRange Th).map fun t =>
      leakyVec (linear w.targetEmbW w.targetEmbB (inp.targetAgentRep b t)))

/-- Lane-node path before fusion: per-pose linear embedding + LeakyReLU, then
the variable-size GRU encoder under the lane-node masks. -/
def pgpLaneEnc0 {B Th dtf M P dnf E V Pd Tn dvf L dte hT dne h dve hN : ℕ}
    (w : PGPWeights B dtf dte hT M dnf dne h V Pd dvf dve hN)
    (inp : PGPInputs B Th dtf M P dnf E V Pd Tn dvf L) : Fin B → Fin M → Fin h → ℚ :=
  variableSizeGruEncode
    (fun b n p => leakyVec (linear w.nodeEmbW w.nodeEmbB (inp.laneNodeFeats b n p)))
    inp.laneNodeMasks w.nodeGru

/-- Vehicle path: zero type flag appended, embedded, summarized. -/
def pgpVehEnc {B Th dtf M P dnf E V Pd Tn dvf L dte hT dne h dve hN : ℕ}
    (w : PGPWeights B dtf dte hT M dnf dne h V Pd dvf dve hN)
    (inp : PGPInputs B Th dtf M P dnf E V Pd Tn dvf L) : Fin B → Fin V → Fin hN → ℚ :=
  variableSizeGruEncode
    (fun b v t => leakyVec (linear w.nbrEmbW w.nbrEmbB (appendFlag 0 (inp.vehicles b v t))))
    inp.vehicleMasks w.nbrGru

/-- Pedestrian path: one type flag appended, embedded, summarized. -/
def pgpPedEnc {B Th dtf M P dnf E V Pd Tn dvf L dte hT dne h dve hN : ℕ}
    (w : PGPWeights B dtf dte hT M dnf dne h V Pd dvf dve hN)
    (inp : PGPInputs B Th dtf M P dnf E V Pd Tn dvf L) : Fin B → Fin Pd → Fin hN → ℚ :=
  variableSizeGruEncode
    (fun b p t => leakyVec (linear w.nbrEmbW w.nbrEmbB (appendFlag 1 (inp.pedestrians b p t))))
    inp.pedestrianMasks w.nbrGru

/-- Agent-node attention output: queries from the lane encodings, keys/values
from the concatenated vehicle-then-pedestrian encodings, attention mask from
the concatenated agent-node masks in the same order. -/
def pgpAttOp {B Th dtf M P dnf E V Pd Tn dvf L dte hT dne h dve hN : ℕ}
    (w : PGPWeights B dtf dte hT M dnf dne h V Pd dvf dve hN)
    (inp : PGPInputs B Th dtf M P dnf E V Pd Tn dvf L) : Fin B → Fin M → Fin h → ℚ :=
  w.aNAtt
    (fun b n => linear w.queryW w.queryB (pgpLaneEnc0 w inp b n))
    (fun b j => linear w.keyW w.keyB (catVec (pgpVehEnc w inp b) (pgpPedEnc w inp b) j))
    (fun b j => linear w.valW w.valB (catVec (pgpVehEnc w inp b) (pgpPedEnc w inp b) j))
    (fun b n => catVec (inp.agentNodeMasksVeh b n) (inp.agentNodeMasksPed b n))

/-- Fused lane-node encodings: original encodings concatenated with the
attention output, mixed down and passed through LeakyReLU. -/
def pgpLaneEnc1 {B Th dtf M P dnf E V Pd Tn dvf L dte hT dne h dve hN : ℕ}
    (w : PGPWeights B dtf dte hT M dnf dne h V Pd dvf dve hN)
    (inp : PGPInputs B Th dtf M P dnf E V Pd Tn dvf L) : Fin B → Fin M → Fin h → ℚ :=
  fun b n =>
    leakyVec (linear w.mixW w.mixB (catVec (pgpLaneEnc0 w inp b n) (pgpAttOp w inp b n)))

/-- GAT refinement: each layer's output is added residually onto the running
encodings (`lane_node_enc += gat_layer(lane_node_enc, adj_mat)`). -/
def pgpLaneEnc2 {B Th dtf M P dnf E V Pd Tn dvf L dte hT dne h dve hN : ℕ}
    (w : PGPWeights B dtf dte hT M dnf dne h V Pd dvf dve hN)
    (inp : PGPInputs B Th dtf M P dnf E V Pd Tn dvf L)
    (adj : Fin B → Fin M → Fin M → Bool) : Fin B → Fin M → Fin h → ℚ :=
  w.gats.foldl (fun acc gat => fun b n j => acc b n j + gat acc adj b n j)
    (pgpLaneEnc1 w inp)

/-- Node-level validity mask returned by the encoder: a node is invalid (1.0)
iff none of its poses has first mask entry zero
(`~(~masks[:, :, :, 0].bool()).any(dim=2)` as float). -/
def pgpCombinedMasks {B M P dnf : ℕ}
    (laneNodeMasks : Fin B → Fin M → Fin P → Fin (dnf + 1) → ℚ) :
    Fin B → Fin M → ℚ :=
  fun b n => if entityValid laneNodeMasks b n then 0 else 1

/-- Shallow embedding of `PGPEncoder.forward`.  Note that the `s_next` table
placed into the output dictionary is the one left behind by `build_adj_mat`,
i.e. the in-place mutated tensor. -/
def pgpForward {B Th dtf M P dnf E V Pd Tn dvf L dte hT dne h dve hN : ℕ}
    (w : PGPWeights B dtf dte hT M dnf dne h V Pd dvf dve hN)
    (inp : PGPInputs B Th dtf M P dnf E V Pd Tn dvf L) :
    Except String (PGPEncodings B M E L hT h) :=
  match (buildAdjMatRun inp.sNext inp.edgeType).2 with
  | Except.error e => Except.error e
  | Except.ok adj =>
    match inp.initNode with
    | none =>
      Except.ok ⟨pgpTargetEnc w inp, pgpLaneEnc2 w inp adj,
        pgpCombinedMasks inp.laneNodeMasks, none, none, none, none⟩
    | some ini =>
      match inp.nodeSeqGt with
      | none => Except.error "KeyError: node_seq_gt"
      | some g =>
        Except.ok ⟨pgpTargetEnc w inp, pgpLaneEnc2 w inp adj,
          pgpCombinedMasks inp.laneNodeMasks, some ini, some g,
          some (buildAdjMatRun inp.sNext inp.edgeType).1, some inp.edgeType⟩

/-- C10: `build_adj_mat` mutates its `s_next` argument in place — every slot
whose `edge_type` is the sentinel 0 is overwritten with the slot's own source
node index, slots with a real edge type are untouched — the adjacency call
leaves the mutated table behind (it is not restored), and the encoder's output
dictionary carries that mutated table, so the aggregator receives the mutated
values. -/
theorem pgpForward_sNext_mutated {B Th dtf M P dnf E V Pd Tn dvf L dte hT dne h dve hN : ℕ}
    (w : PGPWeights B dtf dte hT M dnf dne h V Pd dvf dve hN)
    (inp : PGPInputs B Th dtf M P dnf E V Pd Tn dvf L)
    (ini : Fin B → Fin M → ℚ) (g : Fin B → Fin L → ℤ)
    (out : PGPEncodings B M E L hT h)
    (hini : inp.initNode = some ini) (hgt : inp.nodeSeqGt = some g)
    (hok : pgpForward w inp = Except.ok out) :
    out.sNextOut = some (dummyCorrected inp.sNext inp.edgeType) ∧
    (∀ b i k, inp.edgeType b i k = 0 →
      dummyCorrected inp.sNext inp.edgeType b i k = (i : ℤ)) ∧
    (∀ b i k, inp.edgeType b i k ≠ 0 →
      dummyCorrected inp.sNext inp.edgeType b i k = inp.sNext b i k) ∧
    (buildAdjMatRun inp.sNext inp.edgeType).1 = dummyCorrected inp.sNext inp.edgeType := by
  refine ⟨?_, ?_, ?_, rfl⟩
  · unfold pgpForward at hok
    rw [hini, hgt] at hok
    split at hok
    · exact absurd hok (by simp)
    · rw [← (Except.ok.injEq _ _).mp hok]
      rfl
  · intro b i k hk
    unfold dummyCorrected
    rw [if_pos hk]
  · intro b i k hk
    unfold dummyCorrected
    rw [if_neg hk]

/-- C7 (amended): whenever the encoder's forward returns, the node validity
mask it returns marks exactly those node positions that have no valid poses,
and the node encodings entering the fusion stage (the per-node recurrent
summaries) are zero vectors at exactly those positions; the final 'combined'
tensor is not in general zero there, because the attention mix and the GAT
residuals write into every node position. -/
theorem pgpForward_mask_and_prefusion {B Th dtf M P dnf E V Pd Tn dvf L dte hT dne h dve hN : ℕ}
    (w : PGPWeights B dtf dte hT M dnf dne h V Pd dvf dve hN)
    (inp : PGPInputs B Th dtf M P dnf E V Pd Tn dvf L)
    (out : PGPEncodings B M E L hT h)
    (hm : ∀ b n p, inp.laneNodeMasks b n p 0 = 0 ∨ inp.laneNodeMasks b n p 0 = 1)
    (hok : pgpForward w inp = Except.ok out) :
    (∀ b n, out.combinedMasks b n
      = if ∃ p, inp.laneNodeMasks b n p 0 = 0 then 0 else 1) ∧
    (∀ b n, (∀ p, inp.laneNodeMasks b n p 0 ≠ 0) →
      ∀ j, pgpLaneEnc0 w inp b n j = 0) := by
  have hmask : out.combinedMasks = pgpCombinedMasks inp.laneNodeMasks := by
    unfold pgpForward at hok
    split at hok
    · exact absurd hok (by simp)
    · split at hok
      · rw [← (Except.ok.injEq _ _).mp hok]
      · split at hok
        · exact absurd hok (by simp)
        · rw [← (Except.ok.injEq _ _).mp hok]
  constructor
  · intro b n
    rw [hmask]
    unfold pgpCombinedMasks
    by_cases hv : ∃ p, inp.laneNodeMasks b n p 0 = 0
    · rw [if_pos ((entityValid_iff _ _ _).mpr hv), if_pos hv]
    · rw [if_neg (fun hc => hv ((entityValid_iff _ _ _).mp hc)), if_neg hv]
  · intro b n hinv j
    exact (variableSizeGruEncode_char _ inp.laneNodeMasks w.nodeGru hm b n).1 hinv j

/-! ## Concrete encoder instance

A small concrete instantiation of the encoder used by the C7 counterexample
and the C7/C10 witnesses: one example, two lane nodes (node 0 valid, node 1
invalid), all neighbors invalid, zero weights except for a nonzero mix bias,
constant-zero abstract submodules, no GAT layers. -/

/-- Concrete encoder weights: everything zero except `mixB = 1`. -/
def cxW : PGPWeights 1 1 1 1 2 0 1 1 1 1 0 1 1 :=
  ⟨fun _ _ => 0, fun _ => 0, fun _ _ => 0,
    fun _ _ => 0, fun _ => 0, fun _ _ => 0,
    fun _ _ => 0, fun _ => 0, fun _ _ => 0,
    fun _ _ => 0, fun _ => 0,
    fun _ _ => 0, fun _ => 0,
    fun _ _ => 0, fun _ => 0,
    fun _ _ _ _ _ _ _ => 0,
    fun _ _ => 0, fun _ => 1,
    []⟩

/-- Concrete encoder inputs: lane node 0 valid, lane node 1 invalid, all
neighbors invalid, self-loop edge table, traversal keys present. -/
def cxInp : PGPInputs 1 1 1 2 1 0 1 1 1 1 0 1 :=
  ⟨fun _ _ _ => 0,
    fun _ _ _ _ => 0,
    fun _ n _ _ => if n = 0 then 0 else 1,
    fun _ _ _ => 0,
    fun _ _ _ => 0,
    fun _ _ _ _ => 0, fun _ _ _ _ => 1,
    fun _ _ _ _ => 0, fun _ _ _ _ => 1,
    fun _ _ _ => 1, fun _ _ _ => 1,
    some (fun _ _ => 0),
    some (fun _ _ => 2)⟩

/-- Adjacency matrix of the concrete instance (a single reserved edge slot per
node, so only the self-loops remain). -/
def cxAdj : Fin 1 → Fin 2 → Fin 2 → Bool := fun _ i j => i == j

/-- Encoder output of the concrete instance. -/
def cxOut : PGPEncodings 1 2 1 1 1 1 :=
  ⟨fun _ _ => 0,
    fun _ _ _ => 1,
    fun _ n => if n = 0 then 0 else 1,
    some (fun _ _ => 0),
    some (fun _ _ => 2),
    some (fun _ i _ => (i : ℤ)),
    some (fun _ _ _ => 0)⟩

/-- Evaluation of the encoder forward on the concrete instance. -/
theorem pgpForward_cx_eval : pgpForward cxW cxInp = Except.ok cxOut := by
  have hadj : (buildAdjMatRun cxInp.sNext cxInp.edgeType).2 = Except.ok cxAdj := by
    unfold buildAdjMatRun
    dsimp only
    rw [if_pos (by decide)]
    congr 1
    funext b i j
    revert b i j
    decide
  have htarget : pgpTargetEnc cxW cxInp = fun _ _ => (0 : ℚ) := by
    funext b j
    rfl
  have hlane1 : pgpLaneEnc1 cxW cxInp = fun _ _ _ => (1 : ℚ) := by
    funext b n j
    unfold pgpLaneEnc1 leakyVec linear
    show leakyRelu ((∑ k, cxW.mixW j k * _) + cxW.mixB j) = 1
    have hW : ∀ k, cxW.mixW j k = 0 := fun _ => rfl
    have hB : cxW.mixB j = 1 := rfl
    simp only [hW, hB, zero_mul, Finset.sum_const_zero, zero_add]
    unfold leakyRelu
    norm_num
  have hlane2 : pgpLaneEnc2 cxW cxInp cxAdj = pgpLaneEnc1 cxW cxInp := rfl
  have hmask : pgpCombinedMasks cxInp.laneNodeMasks
      = fun _ (n : Fin 2) => if n = 0 then (0 : ℚ) else 1 := by
    funext b n
    revert b n
    decide
  have hsnext : (buildAdjMatRun cxInp.sNext cxInp.edgeType).1
      = fun _ (i : Fin 2) _ => (i : ℤ) := by
    funext b i k
    revert b i k
    decide
  unfold pgpForward
  rw [hadj]
  show Except.ok ⟨pgpTargetEnc cxW cxInp, pgpLaneEnc2 cxW cxInp cxAdj,
    pgpCombinedMasks cxInp.laneNodeMasks, some _, some _,
    some (buildAdjMatRun cxInp.sNext cxInp.edgeType).1, some cxInp.edgeType⟩
      = Except.ok cxOut
  rw [htarget, hlane2, hlane1, hmask, hsnext]
  rfl

/-- Counterexample to C7 as stated: on the concrete instance the returned
validity mask marks node 1 invalid (value 1), yet the 'combined' encoding at
node 1 is 1, not the zero vector — the mix bias and attention fusion write
into masked node positions. -/
theorem pgpForward_zero_at_invalid_counterexample :
    (∀ (b : Fin 1) (n : Fin 2) (p : Fin 1),
      cxInp.laneNodeMasks b n p 0 = 0 ∨ cxInp.laneNodeMasks b n p 0 = 1) ∧
    (pgpForward cxW cxInp).toOption.map
      (fun o => (o.combinedMasks 0 1, o.combined 0 1 0)) = some (1, 1) ∧
    (1 : ℚ) ≠ 0 := by
  refine ⟨by decide, ?_, one_ne_zero⟩
  rw [pgpForward_cx_eval]
  rfl

/-- Witness for C7 (amended) on the concrete instance. -/
theorem pgpForward_mask_and_prefusion_witness :
    (∀ (b : Fin 1) (n : Fin 2) (p : Fin 1),
      cxInp.laneNodeMasks b n p 0 = 0 ∨ cxInp.laneNodeMasks b n p 0 = 1) ∧
    pgpForward cxW cxInp = Except.ok cxOut ∧
    ((∀ (b : Fin 1) (n : Fin 2), cxOut.combinedMasks b n
        = if ∃ p : Fin 1, cxInp.laneNodeMasks b n p 0 = 0 then 0 else 1) ∧
      (∀ (b : Fin 1) (n : Fin 2), (∀ p : Fin 1, cxInp.laneNodeMasks b n p 0 ≠ 0) →
        ∀ j, pgpLaneEnc0 cxW cxInp b n j = 0)) :=
  ⟨by decide, pgpForward_cx_eval,
    pgpForward_mask_and_prefusion cxW cxInp cxOut (by decide) pgpForward_cx_eval⟩

/-- Witness for C10 on the concrete instance: `edge_type` is 0 at slot
`(0, 1, 0)` and the original `s_next` entry there is 0, but the output table
carries the mutated value 1 (the slot's own source node index). -/
theorem pgpForward_sNext_mutated_witness :
    (cxInp.initNode = some (fun _ _ => 0) ∧
      cxInp.nodeSeqGt = some (fun _ _ => 2) ∧
      pgpForward cxW cxInp = Except.ok cxOut) ∧
    (cxOut.sNextOut = some (dummyCorrected cxInp.sNext cxInp.edgeType) ∧
      (∀ (b : Fin 1) (i : Fin 2) (k : Fin 1), cxInp.edgeType b i k = 0 →
        dummyCorrected cxInp.sNext cxInp.edgeType b i k = (i : ℤ)) ∧
      (∀ (b : Fin 1) (i : Fin 2) (k : Fin 1), cxInp.edgeType b i k ≠ 0 →
        dummyCorrected cxInp.sNext cxInp.edgeType b i k = cxInp.sNext b i k) ∧
      (buildAdjMatRun cxInp.sNext cxInp.edgeType).1
        = dummyCorrected cxInp.sNext cxInp.edgeType) :=
  ⟨⟨rfl, rfl, pgpForward_cx_eval⟩,
    pgpForward_sNext_mutated cxW cxInp (fun _ _ => 0) (fun _ _ => 2) cxOut
      rfl rfl pgpForward_cx_eval⟩

/-! ## Variable-size GRU encoder: shape-aware model

Shape-aware embedding of the same source function
`PGPEncoder.variable_size_gru_encode`, for the error-behaviour claims: tensors
carry their runtime shapes, and every PyTorch operation that checks shapes is
modelled with its check.  `torch.masked_select` broadcasts its two arguments
(each dimension pair must be equal or contain a 1); the collapsed mask has
trailing dimensions `1, 1`, so only the batch and entity dimension pairs can
fail.  `view(-1, T, d)`, `pack_padded_sequence` and `masked_scatter` checks
follow their PyTorch semantics. -/

/-- Rank-4 tensor with runtime shape; entries outside the shape are unused. -/
structure Tensor4 where
  s0 : ℕ
  s1 : ℕ
  s2 : ℕ
  s3 : ℕ
  data : ℕ → ℕ → ℕ → ℕ → ℚ

/-- Rank-3 tensor with runtime shape. -/
structure Tensor3 where
  s0 : ℕ
  s1 : ℕ
  s2 : ℕ
  data : ℕ → ℕ → ℕ → ℚ

/-- Broadcast compatibility of one dimension pair. -/
def bcCompat (a b : ℕ) : Prop := a = b ∨ a = 1 ∨ b = 1

instance (a b : ℕ) : Decidable (bcCompat a b) := by
  unfold bcCompat
  infer_instance

/-- Broadcast result of one dimension pair. -/
def bcDim (a b : ℕ) : ℕ := if a = 1 then b else a

/-- Index into an axis of a broadcast operand: axes of size 1 are replicated. -/
def bcIdx (s i : ℕ) : ℕ := if s = 1 then 0 else i

/-- Row-major enumeration of a runtime-sized 2-D grid. -/
def natGrid (a b : ℕ) : List (ℕ × ℕ) :=
  (List.range a).flatMap fun i => (List.range b).map fun j => (i, j)

/-- Entity validity on the mask grid (`masks_for_batching`), runtime-shaped. -/
def dynValid (masks : Tensor4) (b n : ℕ) : Bool :=
  (List.range masks.s2).any fun t => masks.data b n t 0 == 0

/-- Compacted feature rows after the broadcast `masked_select` and the
`view(-1, T, d)`: the full `T × d` block of every broadcast-grid position
whose (broadcast) mask flag is set, row-major. -/
def dynRows (feat masks : Tensor4) : List (List (List ℚ)) :=
  ((natGrid (bcDim feat.s0 masks.s0) (bcDim feat.s1 masks.s1)).filter fun p =>
    dynValid masks (bcIdx masks.s0 p.1) (bcIdx masks.s1 p.2)).map fun p =>
    (List.range feat.s2).map fun t =>
      (List.range feat.s3).map fun dd =>
        feat.data (bcIdx feat.s0 p.1) (bcIdx feat.s1 p.2) t dd

/-- Compacted nonzero float lengths `seq_lens[seq_lens != 0]`,
runtime-shaped. -/
def dynLens (masks : Tensor4) : List ℚ :=
  ((natGrid masks.s0 masks.s1).map fun p =>
    ∑ t ∈ Finset.range masks.s2, (1 - masks.data p.1 p.2 t 0)).filter fun x =>
    x != 0

/-- Scattered encodings over the mask grid, runtime-shaped. -/
def dynScat (feat masks : Tensor4) (gru : List (List ℚ) → List ℚ) :
    List (List ℚ) :=
  scatterBack [] ((natGrid masks.s0 masks.s1).map fun p => dynValid masks p.1 p.2)
    (((dynRows feat masks).zip (dynLens masks)).map fun r =>
      gru (r.1.take (lenNat r.2)))

/-- Shape-aware embedding of `PGPEncoder.variable_size_gru_encode`: the same
computation as `variableSizeGruEncode`, together with the shape and length
checks that its PyTorch operations perform.  The recurrent summarizer maps a
list of step vectors (as rational lists) to a final hidden state. -/
def vsGruEncodeDyn (feat masks : Tensor4) (gru : List (List ℚ) → List ℚ)
    (hidden : ℕ) : Except String Tensor3 :=
  if masks.s3 = 0 then
    Except.error "IndexError: masks[:, :, :, 0] on an empty last axis"
  else if ¬ (bcCompat feat.s0 masks.s0 ∧ bcCompat feat.s1 masks.s1) then
    Except.error "RuntimeError: masked_select operands are not broadcastable"
  else if feat.s2 * feat.s3 = 0 then
    Except.error "RuntimeError: view(-1, T, d) cannot infer the batch dimension"
  else if (dynLens masks).length = 0 then
    Except.ok ⟨feat.s0, feat.s1, hidden, fun _ _ _ => 0⟩
  else if (dynLens masks).length ≠ (dynRows feat masks).length then
    Except.error "RuntimeError: pack_padded_sequence length-count mismatch"
  else if ¬ (∀ x ∈ dynLens masks, 1 ≤ lenNat x ∧ lenNat x ≤ feat.s2) then
    Except.error "RuntimeError: pack_padded_sequence invalid sequence length"
  else
    Except.ok ⟨masks.s0, masks.s1, hidden,
      fun b n j =>
        if b < masks.s0 ∧ n < masks.s1 ∧ j < hidden then
          ((dynScat feat masks gru).getD (b * masks.s1 + n) []).getD j 0
        else 0⟩

/-- C9 (amended): a feature/mask shape mismatch in the batch or entity
dimension that is not broadcastable (the pair differs and neither side is 1)
makes the call fail loudly. -/
theorem vsGruEncodeDyn_non_broadcastable (feat masks : Tensor4)
    (gru : List (List ℚ) → List ℚ) (hidden : ℕ)
    (hbad : ¬ (bcCompat feat.s0 masks.s0 ∧ bcCompat feat.s1 masks.s1)) :
    ∃ msg, vsGruEncodeDyn feat masks gru hidden = Except.error msg := by
  unfold vsGruEncodeDyn
  by_cases h3 : masks.s3 = 0
  · exact ⟨_, by rw [if_pos h3]⟩
  · exact ⟨_, by rw [if_neg h3, if_pos hbad]⟩

/-- Concrete feature tensor (shape `[2, 1, 1, 1]`) for the C9 witness. -/
def wFeatC9 : Tensor4 := ⟨2, 1, 1, 1, fun _ _ _ _ => 0⟩

/-- Concrete mask tensor (shape `[3, 1, 1, 1]`, non-broadcastable batch
dimension) for the C9 witness. -/
def wMaskC9 : Tensor4 := ⟨3, 1, 1, 1, fun _ _ _ _ => 0⟩

/-- Concrete summarizer for the C9 witness and counterexample. -/
def wGruC9 : List (List ℚ) → List ℚ := fun _ => [0]

/-- Witness for C9 (amended): batch dimensions 2 versus 3 raise. -/
theorem vsGruEncodeDyn_non_broadcastable_witness :
    (¬ (bcCompat wFeatC9.s0 wMaskC9.s0 ∧ bcCompat wFeatC9.s1 wMaskC9.s1)) ∧
    ∃ msg, vsGruEncodeDyn wFeatC9 wMaskC9 wGruC9 1 = Except.error msg :=
  ⟨by decide, vsGruEncodeDyn_non_broadcastable wFeatC9 wMaskC9 wGruC9 1 (by decide)⟩

/-- Concrete feature tensor (shape `[1, 1, 1, 2]`) for the C9 counterexample. -/
def cxFeatC9 : Tensor4 := ⟨1, 1, 1, 2, fun _ _ _ _ => 0⟩

/-- Concrete all-valid mask tensor (mismatched shape `[1, 1, 1, 1]`) for the
C9 counterexample. -/
def cxMaskC9 : Tensor4 := ⟨1, 1, 1, 1, fun _ _ _ _ => 0⟩

/-- Counterexample to C9 as stated: the mask shape `[1, 1, 1, 1]` mismatches
the feature shape `[1, 1, 1, 2]`, yet the call does not raise — the mask is
silently broadcast over the feature tensor and a normal encoding is
returned. -/
theorem vsGruEncodeDyn_broadcast_counterexample :
    (cxFeatC9.s3 ≠ cxMaskC9.s3) ∧
    (vsGruEncodeDyn cxFeatC9 cxMaskC9 wGruC9 1).isOk = true := by
  refine ⟨by decide, ?_⟩
  have hlens : dynLens cxMaskC9 = [1] := by
    unfold dynLens
    have hmg : natGrid cxMaskC9.s0 cxMaskC9.s1 = [(0, 0)] := by decide
    rw [hmg]
    have hq : (∑ t ∈ Finset.range cxMaskC9.s2, (1 - cxMaskC9.data 0 0 t 0)) = 1 := by
      show (∑ t ∈ Finset.range 1, ((1 : ℚ) - 0)) = 1
      simp
    simp only [List.map_cons, List.map_nil, hq]
    simp
  have hrows : dynRows cxFeatC9 cxMaskC9 = [[[0, 0]]] := by decide
  unfold vsGruEncodeDyn
  rw [if_neg (by decide), if_neg (by decide), if_neg (by decide), hlens, hrows]
  have hP : ∀ x ∈ [(1 : ℚ)], 1 ≤ lenNat x ∧ lenNat x ≤ cxFeatC9.s2 := by
    intro x hx
    rw [List.mem_singleton] at hx
    subst hx
    have h1 : lenNat 1 = 1 := by
      unfold lenNat
      norm_num
    rw [h1]
    exact ⟨le_refl 1, by decide⟩
  rw [if_neg (by decide), if_neg (by decide), if_neg (not_not_intro hP)]
  rfl

end PGP
